import Mathlib

/-!
Verification of the MiniRustDeskAgent transport core.

This file shallowly embeds the two source files under scrutiny:
  * `src/libs/hbb_common/src/bytes_codec.rs` — the length-prefixed frame codec;
  * `src/libs/hbb_common/src/socket_client.rs` — the connection orchestrator.

Machine integers are modelled as `Nat` (with explicit `% 2 ^ w` where the Rust
code performs an `as` cast); byte buffers are `List Nat`; fallible Rust code
returning `io::Result`/`ResultType` is modelled with `Except String`.
-/

namespace MiniRustDesk

/-! ## BytesCodec — `src/libs/hbb_common/src/bytes_codec.rs`

The decoder state (`enum DecodeState`) and codec struct are translated
directly.  `usize::MAX` is `2 ^ 64 - 1` (the 64-bit target). -/

inductive DecodeState where
  | Head : DecodeState
  | Data : Nat → DecodeState
deriving DecidableEq, Repr

structure BytesCodec where
  state : DecodeState
  raw : Bool
  maxPacketLength : Nat
deriving DecidableEq, Repr

/-- `BytesCodec::new()`. -/
def BytesCodec.new : BytesCodec :=
  { state := .Head, raw := false, maxPacketLength := 2 ^ 64 - 1 }

/-- `fn decode_head(&mut self, src) -> io::Result<Option<usize>>`.
Returns the decoded result together with the buffer left in `src`
(`src.advance(head_len)` on success; untouched on `None` or error —
`src.reserve(n)` only affects capacity and has no semantic content). -/
def decodeHead (c : BytesCodec) (src : List Nat) :
    Except String (Option Nat) × List Nat :=
  if src.isEmpty then (.ok none, src)
  else
    let headLen := (src.headD 0 &&& 0x3) + 1
    if src.length < headLen then (.ok none, src)
    else
      let n0 := src.headD 0
      let n1 := if headLen > 1 then n0 ||| (src.getD 1 0 <<< 8) else n0
      let n2 := if headLen > 2 then n1 ||| (src.getD 2 0 <<< 16) else n1
      let n3 := if headLen > 3 then n2 ||| (src.getD 3 0 <<< 24) else n2
      let n := n3 >>> 2
      if n > c.maxPacketLength then (.error "Too big packet", src)
      else (.ok (some n), src.drop headLen)

/-- `fn decode_data(&self, n, src)`: `None` when fewer than `n` bytes are
buffered, otherwise `src.split_to(n)`. -/
def decodeData (n : Nat) (src : List Nat) : Option (List Nat × List Nat) :=
  if src.length < n then none
  else some (src.take n, src.drop n)

/-- `Decoder::decode` of `BytesCodec`.  Returns the decode result together
with the codec and buffer after the call (the Rust code mutates `self` and
`src` in place; on an error neither has been touched). -/
def decode (c : BytesCodec) (src : List Nat) :
    Except String (Option (List Nat)) × BytesCodec × List Nat :=
  if c.raw then
    if !src.isEmpty then (.ok (some src), c, [])
    else (.ok none, c, src)
  else
    match c.state with
    | .Head =>
      match decodeHead c src with
      | (.error e, src') => (.error e, c, src')
      | (.ok none, src') => (.ok none, c, src')
      | (.ok (some n), src') =>
        match decodeData n src' with
        | some (data, rest) => (.ok (some data), { c with state := .Head }, rest)
        | none => (.ok none, { c with state := .Data n }, src')
    | .Data n =>
      match decodeData n src with
      | some (data, rest) => (.ok (some data), { c with state := .Head }, rest)
      | none => (.ok none, c, src)

/-- `Encoder::encode` of `BytesCodec`: appends the header (per the four
length classes) and the payload to `buf`.  `put_u16_le`/`put_u32_le` write
little-endian bytes; `as uN` casts are `% 2 ^ N`. -/
def encode (c : BytesCodec) (data : List Nat) (buf : List Nat) :
    Except String (List Nat) :=
  if c.raw then .ok (buf ++ data)
  else if data.length ≤ 0x3F then
    .ok (buf ++ [(data.length <<< 2) % 2 ^ 8] ++ data)
  else if data.length ≤ 0x3FFF then
    let v := ((data.length <<< 2) % 2 ^ 16) ||| 0x1
    .ok (buf ++ [v % 2 ^ 8, (v >>> 8) % 2 ^ 8] ++ data)
  else if data.length ≤ 0x3FFFFF then
    let h := ((data.length <<< 2) % 2 ^ 32) ||| 0x2
    let w := h &&& 0xFFFF
    .ok (buf ++ [w % 2 ^ 8, (w >>> 8) % 2 ^ 8, (h >>> 16) % 2 ^ 8] ++ data)
  else if data.length ≤ 0x3FFFFFFF then
    let v := ((data.length <<< 2) % 2 ^ 32) ||| 0x3
    .ok (buf ++ [v % 2 ^ 8, (v >>> 8) % 2 ^ 8, (v >>> 16) % 2 ^ 8, (v >>> 24) % 2 ^ 8] ++ data)
  else .error "Overflow"

/-! Wire-format descriptions used to state the claims: a header of length
`h ∈ {1,2,3,4}` carries the value `(L << 2) | (h - 1)` in `h` little-endian
bytes (§3 of the spec). -/

/-- The `k` little-endian bytes of `v`. -/
def leBytes (k v : Nat) : List Nat :=
  (List.range k).map (fun i => v / 2 ^ (8 * i) % 2 ^ 8)

/-- The header of length `h` declaring payload length `L`. -/
def genHeader (h L : Nat) : List Nat :=
  leBytes h (4 * L + (h - 1))

/-- Largest payload length representable with header length `h` (§3 table). -/
def hdrMax : Nat → Nat
  | 1 => 0x3F
  | 2 => 0x3FFF
  | 3 => 0x3FFFFF
  | _ => 0x3FFFFFFF

/-- The minimal header length for payload length `L` per the §3 table. -/
def minHeaderLen (L : Nat) : Nat :=
  if L ≤ 0x3F then 1
  else if L ≤ 0x3FFF then 2
  else if L ≤ 0x3FFFFF then 3
  else 4

/-- Decoder-plus-buffer pair after `k` bytes of the frame
`genHeader h L ++ p` have been fed and every completed decode step applied:
while the header is incomplete nothing is consumed; once the header is
complete it has been consumed and the state is `Data L`. -/
def midState (c : BytesCodec) (h L : Nat) (p : List Nat) (k : Nat) :
    BytesCodec × List Nat :=
  if k < h then (c, (genHeader h L ++ p).take k)
  else ({ c with state := .Data L }, p.take (k - h))

/-- The caller's read loop: each chunk is appended to the pending buffer and
`decode` is called once, collecting the per-call results. -/
def feedChunks : BytesCodec → List Nat → List (List Nat) →
    Except String (BytesCodec × List Nat × List (Option (List Nat)))
  | c, buf, [] => .ok (c, buf, [])
  | c, buf, ch :: rest =>
    match (decode c (buf ++ ch)).1 with
    | .error e => .error e
    | .ok fr =>
      match feedChunks (decode c (buf ++ ch)).2.1 (decode c (buf ++ ch)).2.2 rest with
      | .error e => .error e
      | .ok (c2, b2, rs) => .ok (c2, b2, fr :: rs)

/-- The payload length a complete header at the front of `src` declares:
the same little-endian composition and `>> 2` unpacking that `decode_head`
performs (§3 packing rule). -/
def declaredLen (src : List Nat) : Nat :=
  let headLen := (src.headD 0 &&& 0x3) + 1
  let n0 := src.headD 0
  let n1 := if headLen > 1 then n0 ||| (src.getD 1 0 <<< 8) else n0
  let n2 := if headLen > 2 then n1 ||| (src.getD 2 0 <<< 16) else n1
  let n3 := if headLen > 3 then n2 ||| (src.getD 3 0 <<< 24) else n2
  n3 >>> 2

/-! ## socket_client — `src/libs/hbb_common/src/socket_client.rs`

The orchestrator's collaborators (the process-wide configuration store, the
`FramedStream`/`FramedSocket` providers performing socket I/O, the OS
resolver and the TCP connector) are out of scope per §1/§6 of the spec; they
enter the model as explicit parameters, and the calls the orchestrator
delegates to them are reified as data so the decision logic itself is what
gets verified. -/

/-- A resolved socket address: family, address value, port. -/
inductive SocketAddr where
  | v4 : Nat → Nat → SocketAddr
  | v6 : Nat → Nat → SocketAddr
deriving DecidableEq, Repr

def SocketAddr.is_ipv4 : SocketAddr → Bool
  | .v4 _ _ => true
  | .v6 _ _ => false

def SocketAddr.is_ipv6 (a : SocketAddr) : Bool :=
  !a.is_ipv4

/-- `tokio_socks::TargetAddr`: a resolved address or an unresolved
domain/port pair. -/
inductive TargetAddr where
  | Ip : SocketAddr → TargetAddr
  | Domain : List Char → Nat → TargetAddr
deriving DecidableEq, Repr

/-- A `connect_tcp_local` target: either an already-resolved `SocketAddr` or
a host string (the two `IsResolvedSocketAddr` implementations). -/
inductive ConnTarget where
  | addr : SocketAddr → ConnTarget
  | name : List Char → ConnTarget
deriving DecidableEq, Repr

/-- `IsResolvedSocketAddr::resolve`: `Some(self)` for `SocketAddr`, `None`
for strings. -/
def ConnTarget.resolve : ConnTarget → Option SocketAddr
  | .addr a => some a
  | .name _ => none

/-- `Config::get_socks()` payload: `(proxy, username, password)`. -/
structure SocksConf where
  proxy : List Char
  username : List Char
  password : List Char
deriving DecidableEq, Repr

/-- `config::NetworkType` (the two variants the orchestrator consults). -/
inductive NetworkType where
  | Direct : NetworkType
  | ProxySocks : NetworkType
deriving DecidableEq, Repr

/-- The stream-collaborator call `connect_tcp_local` delegates to:
`FramedStream::connect(target, local, conf, ms)` on the proxy path or
`FramedStream::new(target, local, ms)` on the direct path. -/
inductive StreamCall where
  | proxyConnect : ConnTarget → Option SocketAddr → SocksConf → Nat → StreamCall
  | directNew : ConnTarget → Option SocketAddr → Nat → StreamCall
deriving DecidableEq, Repr

/-- `fn query_nip_io(addr)`: resolve the NAT64 name
`"{addr.ip()}.nip.io:{addr.port()}"` and take the first IPv6 result, with
the context error when none exists.  The resolver is the parameter
`lookup`, keyed by the address whose NAT64 name is formed. -/
def query_nip_io (lookup : SocketAddr → Except String (List SocketAddr))
    (addr : SocketAddr) : Except String SocketAddr :=
  match lookup addr with
  | .error e => .error e
  | .ok addrs =>
    match addrs.find? (fun x => x.is_ipv6) with
    | some a => .ok a
    | none => .error "Failed to get ipv6 from nip.io"

/-- `async fn connect_tcp_local(target, local, ms_timeout)`.  Besides the
stream-collaborator call it results in, the second component records the
addresses whose NAT64 name was resolved (the DNS-synthesis calls made by
`query_nip_io`). -/
def connect_tcp_local (socks : Option SocksConf)
    (lookup : SocketAddr → Except String (List SocketAddr))
    (target : ConnTarget) (localAddr : Option SocketAddr) (ms : Nat) :
    Except String StreamCall × List SocketAddr :=
  match socks with
  | some conf => (.ok (.proxyConnect target localAddr conf ms), [])
  | none =>
    match target.resolve with
    | some t =>
      match localAddr with
      | some l =>
        if l.is_ipv6 && t.is_ipv4 then
          match query_nip_io lookup t with
          | .ok t2 => (.ok (.directNew (.addr t2) (some l) ms), [t])
          | .error e => (.error e, [t])
        else (.ok (.directNew target localAddr ms), [])
      | none => (.ok (.directNew target localAddr ms), [])
    | none => (.ok (.directNew target localAddr ms), [])

/-- `async fn test_target(target)`.  `connect ms t` models
`super::timeout(ms, TcpStream::connect(t))` followed by `peer_addr()`:
`some a` when the connection succeeded within the timeout and the peer
address was readable, `none` otherwise; `lookup` models
`tokio::net::lookup_host`. -/
def test_target (connect : Nat → List Char → Option SocketAddr)
    (lookup : List Char → Except String (List SocketAddr))
    (target : List Char) : Except String SocketAddr :=
  match connect 1000 target with
  | some addr => .ok addr
  | none =>
    match lookup target with
    | .error e => .error e
    | .ok addrs =>
      match addrs.head? with
      | some a => .ok a
      | none => .error ("Failed to look up host for " ++ String.mk target)

/-- Modelled from the spec: `Config::get_any_listen_addr(ipv4)` lives in the
configuration module, which is not under `src/`; §6 specifies it as
`get_local_bind_address(family) → address`, the wildcard local address of
the requested family. -/
def get_any_listen_addr (ipv4 : Bool) : SocketAddr :=
  if ipv4 then .v4 0 0 else .v6 0 0

/-- The socket-collaborator call `new_udp` delegates to:
`FramedSocket::new(local)` without a proxy, or
`FramedSocket::new_proxy(conf.proxy, local, conf.username, conf.password,
ms)` with one. -/
inductive UdpSocketCall where
  | plain : SocketAddr → UdpSocketCall
  | viaProxy : List Char → SocketAddr → List Char → List Char → Nat → UdpSocketCall
deriving DecidableEq, Repr

/-- `async fn new_udp(local, ms_timeout)`. -/
def new_udp (socks : Option SocksConf) (localAddr : SocketAddr) (ms : Nat) :
    UdpSocketCall :=
  match socks with
  | none => .plain localAddr
  | some conf => .viaProxy conf.proxy localAddr conf.username conf.password ms

/-- `async fn new_udp_for(target, ms_timeout)`.  `intoTA` models
`str::into_target_addr` from `tokio_socks` (an external parsing
collaborator); on an already-resolved `SocketAddr` the same trait method is
infallible and yields `TargetAddr::Ip`. -/
def new_udp_for (net : NetworkType) (socks : Option SocksConf)
    (connect : Nat → List Char → Option SocketAddr)
    (lookup : List Char → Except String (List SocketAddr))
    (intoTA : List Char → Except String TargetAddr)
    (target : List Char) (ms : Nat) :
    Except String (UdpSocketCall × TargetAddr) := do
  let (ipv4, ta) ←
    if net = NetworkType.Direct then do
      let addr ← test_target connect lookup target
      pure (addr.is_ipv4, TargetAddr.Ip addr)
    else do
      let ta ← intoTA target
      pure (true, ta)
  pure (new_udp socks (get_any_listen_addr ipv4) ms, ta)

/-! String machinery for `increase_port`. -/

/-- Rust `str::split(sep)`: splits at every occurrence, keeping empty
segments. -/
def splitOnChar (sep : Char) : List Char → List (List Char)
  | [] => [[]]
  | c :: rest =>
    if c = sep then [] :: splitOnChar sep rest
    else
      match splitOnChar sep rest with
      | [] => [[c]]
      | seg :: segs => (c :: seg) :: segs

/-- Rust `str::split("]:")`: splits at every non-overlapping occurrence of
the two-character pattern, left to right. -/
def splitOnBracketColon : List Char → List (List Char)
  | [] => [[]]
  | [c] => [[c]]
  | c1 :: c2 :: rest =>
    if c1 = ']' ∧ c2 = ':' then [] :: splitOnBracketColon rest
    else
      match splitOnBracketColon (c2 :: rest) with
      | [] => [[c1]]
      | seg :: segs => (c1 :: seg) :: segs

/-- Decimal value of a non-empty all-digit string. -/
def digitsVal : List Char → Option Nat
  | [] => none
  | s =>
    if s.all Char.isDigit then
      some (s.foldl (fun acc c => acc * 10 + (c.toNat - '0'.toNat)) 0)
    else none

/-- Rust `str::parse::<i32>()`: optional sign, at least one digit, and an
i32 range check. -/
def parseI32 (s : List Char) : Option Int :=
  match s with
  | '+' :: rest =>
    (digitsVal rest).bind (fun n => if n ≤ 2 ^ 31 - 1 then some (n : Int) else none)
  | '-' :: rest =>
    (digitsVal rest).bind (fun n => if n ≤ 2 ^ 31 then some (-(n : Int)) else none)
  | s =>
    (digitsVal s).bind (fun n => if n ≤ 2 ^ 31 - 1 then some (n : Int) else none)

/-- Decimal rendering of an integer, as `format!` prints an `i32`. -/
def intToChars (i : Int) : List Char :=
  if i < 0 then '-' :: Nat.toDigits 10 i.natAbs else Nat.toDigits 10 i.natAbs

def isHexDigit (c : Char) : Bool :=
  c.isDigit || ('a' ≤ c && c ≤ 'f') || ('A' ≤ c && c ≤ 'F')

/-- Modelled from the spec: `crate::is_ipv6_str` lives in the crate root,
which is not under `src/`; §4.2 specifies it only as syntactic
classification of IPv6 literals (optionally bracketed, with a port — the
callers are bracket-aware).  A string classifies as IPv6 when its host part
(the whole string, or the part between `[` and `]` when bracketed) is made
of hexadecimal digits and colons with at least two colons. -/
def is_ipv6_str (s : List Char) : Bool :=
  let core :=
    if s.headD ' ' = '[' then (s.drop 1).takeWhile (fun c => !(c = ']'))
    else s
  decide (2 ≤ core.countP (fun c => decide (c = ':'))) &&
    core.all (fun c => isHexDigit c || decide (c = ':'))

/-- Rust `i32` two's-complement wrapping of an integer: the value
`port + offset` in the source is `i32` arithmetic, which wraps on overflow
(release builds; a debug build panics there instead — the model takes the
wrapping semantics, and the claims only assert the non-overflowing
region, which both build modes agree on). -/
def i32Wrap (x : Int) : Int :=
  (x + 2 ^ 31) % 2 ^ 32 - 2 ^ 31

/-- `fn increase_port(host, offset)`: `port + offset` is `i32` addition. -/
def increase_port (host : List Char) (offset : Int) : List Char :=
  if is_ipv6_str host then
    if host.headD ' ' = '[' then
      let tmp := splitOnBracketColon host
      if tmp.length = 2 then
        let port : Int := (parseI32 (tmp.getD 1 [])).getD 0
        if port > 0 then
          tmp.getD 0 [] ++ ']' :: ':' :: intToChars (i32Wrap (port + offset))
        else host
      else host
    else host
  else if host.contains ':' then
    let tmp := splitOnChar ':' host
    if tmp.length = 2 then
      let port : Int := (parseI32 (tmp.getD 1 [])).getD 0
      if port > 0 then
        tmp.getD 0 [] ++ ':' :: intToChars (i32Wrap (port + offset))
      else host
    else host
  else host

/-! ## Bit-arithmetic helpers

The Rust header codec composes little-endian bytes with `|` and `<<` and
unpacks with `>> 2` and `& 0x3`.  The following lemmas relate those bitwise
operations to plain arithmetic for the disjoint-bit-range uses in the codec. -/

/-- For `a < 2 ^ k`, or-ing with a value shifted past `a`'s bits is addition. -/
theorem lor_shiftLeft_eq_add (a b k : Nat) (ha : a < 2 ^ k) :
    a ||| (b <<< k) = a + 2 ^ k * b := by
  apply Nat.eq_of_testBit_eq
  intro i
  rw [Nat.testBit_or, Nat.testBit_shiftLeft, Nat.add_comm a (2 ^ k * b),
    Nat.testBit_mul_pow_two_add b ha i]
  by_cases h : i < k
  · have hk : ¬ k ≤ i := by omega
    simp [h, hk]
  · have hk : k ≤ i := by omega
    have hfalse : a.testBit i = false :=
      Nat.testBit_lt_two_pow (Nat.lt_of_lt_of_le ha (Nat.pow_le_pow_right (by omega) hk))
    simp [h, hk, hfalse]

/-- `x &&& 0x3` is `x % 4`. -/
theorem and_three_eq_mod (x : Nat) : x &&& 3 = x % 4 := by
  have h := Nat.and_pow_two_sub_one_eq_mod x 2
  norm_num at h
  exact h

theorem leBytes_one (v : Nat) : leBytes 1 v = [v % 2 ^ 8] := by
  simp [leBytes, List.range_succ]

theorem leBytes_two (v : Nat) : leBytes 2 v = [v % 2 ^ 8, v / 2 ^ 8 % 2 ^ 8] := by
  simp [leBytes, List.range_succ]

theorem leBytes_three (v : Nat) :
    leBytes 3 v = [v % 2 ^ 8, v / 2 ^ 8 % 2 ^ 8, v / 2 ^ 16 % 2 ^ 8] := by
  simp [leBytes, List.range_succ]

theorem leBytes_four (v : Nat) :
    leBytes 4 v =
      [v % 2 ^ 8, v / 2 ^ 8 % 2 ^ 8, v / 2 ^ 16 % 2 ^ 8, v / 2 ^ 24 % 2 ^ 8] := by
  simp [leBytes, List.range_succ]

/-- A complete 1-byte header decodes to its declared length. -/
theorem decodeHead_genHeader_one (c : BytesCodec) (L : Nat) (rest : List Nat)
    (hL : L ≤ 0x3F) (hmax : L ≤ c.maxPacketLength) :
    decodeHead c (genHeader 1 L ++ rest) = (.ok (some L), rest) := by
  have hand : (4 * L + 0) % 2 ^ 8 &&& 3 = 0 := by
    rw [and_three_eq_mod]; omega
  have hdiv : 4 * L % 256 / 4 = L := by omega
  rw [genHeader, leBytes_one]
  simp only [decodeHead, List.cons_append, List.isEmpty_cons, List.headD_cons, hand]
  norm_num [Nat.shiftRight_eq_div_pow]
  rw [hdiv, if_neg (by omega)]

/-- A complete 2-byte header decodes to its declared length. -/
theorem decodeHead_genHeader_two (c : BytesCodec) (L : Nat) (rest : List Nat)
    (hL : L ≤ 0x3FFF) (hmax : L ≤ c.maxPacketLength) :
    decodeHead c (genHeader 2 L ++ rest) = (.ok (some L), rest) := by
  have hand : (4 * L + 1) % 2 ^ 8 &&& 3 = 1 := by
    rw [and_three_eq_mod]; omega
  have hlor : (4 * L + 1) % 256 ||| ((4 * L + 1) / 256 % 256) <<< 8 = 4 * L + 1 := by
    have h := lor_shiftLeft_eq_add ((4 * L + 1) % 256) ((4 * L + 1) / 256 % 256) 8 (by omega)
    norm_num at h
    rw [h]; omega
  have hdiv : (4 * L + 1) / 4 = L := by omega
  rw [genHeader, leBytes_two]
  simp only [decodeHead, List.cons_append, List.isEmpty_cons, List.headD_cons,
    List.getD_cons_succ, List.getD_cons_zero, hand]
  norm_num [Nat.shiftRight_eq_div_pow]
  rw [if_neg (by omega), hlor, hdiv, if_neg (by omega)]

/-- A complete 3-byte header decodes to its declared length. -/
theorem decodeHead_genHeader_three (c : BytesCodec) (L : Nat) (rest : List Nat)
    (hL : L ≤ 0x3FFFFF) (hmax : L ≤ c.maxPacketLength) :
    decodeHead c (genHeader 3 L ++ rest) = (.ok (some L), rest) := by
  have hand : (4 * L + 2) % 2 ^ 8 &&& 3 = 2 := by
    rw [and_three_eq_mod]; omega
  have hlor1 : (4 * L + 2) % 256 ||| ((4 * L + 2) / 256 % 256) <<< 8 = (4 * L + 2) % 65536 := by
    have h := lor_shiftLeft_eq_add ((4 * L + 2) % 256) ((4 * L + 2) / 256 % 256) 8 (by omega)
    norm_num at h
    rw [h]; omega
  have hlor2 : (4 * L + 2) % 65536 ||| ((4 * L + 2) / 65536 % 256) <<< 16 = 4 * L + 2 := by
    have h := lor_shiftLeft_eq_add ((4 * L + 2) % 65536) ((4 * L + 2) / 65536 % 256) 16 (by omega)
    norm_num at h
    rw [h]; omega
  have hdiv : (4 * L + 2) / 4 = L := by omega
  rw [genHeader, leBytes_three]
  simp only [decodeHead, List.cons_append, List.isEmpty_cons, List.headD_cons,
    List.getD_cons_succ, List.getD_cons_zero, hand]
  norm_num [Nat.shiftRight_eq_div_pow]
  rw [if_neg (by omega), hlor1, hlor2, hdiv, if_neg (by omega)]

/-- A complete 4-byte header decodes to its declared length. -/
theorem decodeHead_genHeader_four (c : BytesCodec) (L : Nat) (rest : List Nat)
    (hL : L ≤ 0x3FFFFFFF) (hmax : L ≤ c.maxPacketLength) :
    decodeHead c (genHeader 4 L ++ rest) = (.ok (some L), rest) := by
  have hand : (4 * L + 3) % 2 ^ 8 &&& 3 = 3 := by
    rw [and_three_eq_mod]; omega
  have hlor1 : (4 * L + 3) % 256 ||| ((4 * L + 3) / 256 % 256) <<< 8 = (4 * L + 3) % 65536 := by
    have h := lor_shiftLeft_eq_add ((4 * L + 3) % 256) ((4 * L + 3) / 256 % 256) 8 (by omega)
    norm_num at h
    rw [h]; omega
  have hlor2 :
      (4 * L + 3) % 65536 ||| ((4 * L + 3) / 65536 % 256) <<< 16 = (4 * L + 3) % 16777216 := by
    have h := lor_shiftLeft_eq_add ((4 * L + 3) % 65536) ((4 * L + 3) / 65536 % 256) 16 (by omega)
    norm_num at h
    rw [h]; omega
  have hlor3 :
      (4 * L + 3) % 16777216 ||| ((4 * L + 3) / 16777216 % 256) <<< 24 = 4 * L + 3 := by
    have h :=
      lor_shiftLeft_eq_add ((4 * L + 3) % 16777216) ((4 * L + 3) / 16777216 % 256) 24 (by omega)
    norm_num at h
    rw [h]; omega
  have hdiv : (4 * L + 3) / 4 = L := by omega
  rw [genHeader, leBytes_four]
  simp only [decodeHead, List.cons_append, List.isEmpty_cons, List.headD_cons,
    List.getD_cons_succ, List.getD_cons_zero, hand]
  norm_num [Nat.shiftRight_eq_div_pow]
  rw [if_neg (by omega), hlor1, hlor2, hlor3, hdiv, if_neg (by omega)]

/-- `4 * L ||| c = 4 * L + c` for a 2-bit code `c`. -/
theorem fourmul_lor_code (L c : Nat) (hc : c < 4) : 4 * L ||| c = 4 * L + c := by
  rw [Nat.lor_comm]
  have h := lor_shiftLeft_eq_add c L 2 (by omega)
  rw [Nat.shiftLeft_eq] at h
  norm_num at h
  rw [show 4 * L = L * 4 by ring, h]
  ring

/-- Dispatch over the four header lengths. -/
theorem decodeHead_genHeader (c : BytesCodec) (L : Nat) (rest : List Nat) (h : Nat)
    (hh1 : 1 ≤ h) (hh4 : h ≤ 4) (hL : L ≤ hdrMax h) (hmax : L ≤ c.maxPacketLength) :
    decodeHead c (genHeader h L ++ rest) = (.ok (some L), rest) := by
  interval_cases h
  · exact decodeHead_genHeader_one c L rest (by simpa [hdrMax] using hL) hmax
  · exact decodeHead_genHeader_two c L rest (by simpa [hdrMax] using hL) hmax
  · exact decodeHead_genHeader_three c L rest (by simpa [hdrMax] using hL) hmax
  · exact decodeHead_genHeader_four c L rest (by simpa [hdrMax] using hL) hmax

theorem genHeader_length (h L : Nat) : (genHeader h L).length = h := by
  simp [genHeader, leBytes]

/-- In framed mode the encoder emits exactly the minimal-length header of the
§3 table followed by the payload. -/
theorem encode_framed (c : BytesCodec) (data buf : List Nat) (hraw : c.raw = false)
    (hL : data.length ≤ 0x3FFFFFFF) :
    encode c data buf =
      .ok (buf ++ genHeader (minHeaderLen data.length) data.length ++ data) := by
  have hsh : data.length <<< 2 = 4 * data.length := by
    rw [Nat.shiftLeft_eq]; ring
  unfold encode minHeaderLen
  rw [hraw]
  by_cases h1 : data.length ≤ 0x3F
  · rw [if_neg (by simp), if_pos h1, if_pos h1, genHeader, leBytes_one, hsh]
    norm_num
  · rw [if_neg (by simp), if_neg h1, if_neg h1]
    by_cases h2 : data.length ≤ 0x3FFF
    · rw [if_pos h2, if_pos h2, genHeader, leBytes_two, hsh]
      have hmod : 4 * data.length % 2 ^ 16 = 4 * data.length := Nat.mod_eq_of_lt (by omega)
      rw [hmod, fourmul_lor_code _ 1 (by omega)]
      norm_num [Nat.shiftRight_eq_div_pow]
    · rw [if_neg h2, if_neg h2]
      by_cases h3 : data.length ≤ 0x3FFFFF
      · rw [if_pos h3, if_pos h3, genHeader, leBytes_three, hsh]
        have hmod : 4 * data.length % 2 ^ 32 = 4 * data.length := Nat.mod_eq_of_lt (by omega)
        rw [hmod, fourmul_lor_code _ 2 (by omega)]
        have hand : (4 * data.length + 2) &&& 0xFFFF = (4 * data.length + 2) % 2 ^ 16 := by
          have h := Nat.and_pow_two_sub_one_eq_mod (4 * data.length + 2) 16
          norm_num at h ⊢
          exact h
        simp only [hand, Nat.shiftRight_eq_div_pow]
        norm_num
        omega
      · rw [if_neg h3, if_neg h3, if_pos hL, genHeader, leBytes_four, hsh]
        have hmod : 4 * data.length % 2 ^ 32 = 4 * data.length := Nat.mod_eq_of_lt (by omega)
        rw [hmod, fourmul_lor_code _ 3 (by omega)]
        simp only [Nat.shiftRight_eq_div_pow]

/-- In framed mode, from the `Head` state, a whole well-formed frame decodes
in one call to exactly its payload, returning to the `Head` state with an
empty buffer. -/
theorem decode_genHeader (c : BytesCodec) (h L : Nat) (p : List Nat)
    (hraw : c.raw = false) (hstate : c.state = .Head)
    (hh1 : 1 ≤ h) (hh4 : h ≤ 4) (hL : L ≤ hdrMax h) (hmax : L ≤ c.maxPacketLength)
    (hp : p.length = L) :
    decode c (genHeader h L ++ p) = (.ok (some p), c, []) := by
  obtain ⟨st, raw, mx⟩ := c
  simp only at hraw hstate hmax
  subst hraw hstate
  simp only [decode, Bool.false_eq_true, if_false]
  rw [decodeHead_genHeader _ L p h hh1 hh4 hL hmax]
  simp [decodeData, hp]

/-! Chunked-feeding machinery for the partial-read claim. -/

theorem take_append_ge {α : Type} (l₁ l₂ : List α) (n : Nat) (h : l₁.length ≤ n) :
    (l₁ ++ l₂).take n = l₁ ++ l₂.take (n - l₁.length) := by
  obtain ⟨i, rfl⟩ : ∃ i, n = l₁.length + i := ⟨n - l₁.length, by omega⟩
  rw [List.take_append, Nat.add_sub_cancel_left]

theorem drop_append_ge {α : Type} (l₁ l₂ : List α) (n : Nat) (h : l₁.length ≤ n) :
    (l₁ ++ l₂).drop n = l₂.drop (n - l₁.length) := by
  obtain ⟨i, rfl⟩ : ∃ i, n = l₁.length + i := ⟨n - l₁.length, by omega⟩
  rw [List.drop_append, Nat.add_sub_cancel_left]

/-- First byte of a header: its two low bits recover the code. -/
theorem headByte_and_three (L cc : Nat) (hcc : cc < 4) :
    (4 * L + cc) % 256 &&& 3 = cc := by
  rw [and_three_eq_mod]; omega

/-- An incomplete header prefix makes `decode_head` wait without consuming. -/
theorem decodeHead_partial_header (c : BytesCodec) (h L m : Nat)
    (hh4 : h ≤ 4) (hm : m < h) :
    decodeHead c ((genHeader h L).take m) = (.ok none, (genHeader h L).take m) := by
  match m, hm with
  | 0, _ => simp [decodeHead]
  | m' + 1, hm =>
    interval_cases h
    · omega
    · omega
    · have hm0 : m' = 0 := by omega
      subst hm0
      rw [genHeader, leBytes_two]
      norm_num
      simp [decodeHead, headByte_and_three L 1 (by omega)]
    · have hmb : m' ≤ 1 := by omega
      rw [genHeader, leBytes_three]
      norm_num
      interval_cases m' <;>
        simp [decodeHead, headByte_and_three L 2 (by omega)]
    · have hmb : m' ≤ 2 := by omega
      rw [genHeader, leBytes_four]
      norm_num
      interval_cases m' <;>
        simp [decodeHead, headByte_and_three L 3 (by omega)]

theorem set_state_head_eq (c : BytesCodec) (hstate : c.state = .Head) :
    { c with state := DecodeState.Head } = c := by
  cases c
  simp_all

/-- Framed `Head`-state `decode` when the header is not yet complete. -/
theorem decode_head_none (c : BytesCodec) (src src' : List Nat)
    (hraw : c.raw = false) (hstate : c.state = .Head)
    (hd : decodeHead c src = (.ok none, src')) :
    decode c src = (.ok none, c, src') := by
  obtain ⟨st, raw, mx⟩ := c
  simp only at hraw hstate
  subst hraw hstate
  simp only [decode, Bool.false_eq_true, if_false, hd]

/-- Framed `Head`-state `decode`: header complete, payload incomplete. -/
theorem decode_head_some_short (c : BytesCodec) (src src' : List Nat) (n : Nat)
    (hraw : c.raw = false) (hstate : c.state = .Head)
    (hd : decodeHead c src = (.ok (some n), src'))
    (hdata : decodeData n src' = none) :
    decode c src = (.ok none, { c with state := .Data n }, src') := by
  obtain ⟨st, raw, mx⟩ := c
  simp only at hraw hstate
  subst hraw hstate
  simp only [decode, Bool.false_eq_true, if_false, hd, hdata]

/-- Framed `Head`-state `decode`: header and payload both complete. -/
theorem decode_head_some_full (c : BytesCodec) (src src' data rest : List Nat) (n : Nat)
    (hraw : c.raw = false) (hstate : c.state = .Head)
    (hd : decodeHead c src = (.ok (some n), src'))
    (hdata : decodeData n src' = some (data, rest)) :
    decode c src = (.ok (some data), { c with state := .Head }, rest) := by
  obtain ⟨st, raw, mx⟩ := c
  simp only at hraw hstate
  subst hraw hstate
  simp only [decode, Bool.false_eq_true, if_false, hd, hdata]

/-- Framed `Data n`-state `decode`: payload incomplete. -/
theorem decode_data_short (c : BytesCodec) (src : List Nat) (n : Nat)
    (hraw : c.raw = false) (hstate : c.state = .Data n)
    (hdata : decodeData n src = none) :
    decode c src = (.ok none, c, src) := by
  obtain ⟨st, raw, mx⟩ := c
  simp only at hraw hstate
  subst hraw hstate
  simp only [decode, Bool.false_eq_true, if_false, hdata]

/-- Framed `Data n`-state `decode`: payload complete. -/
theorem decode_data_full (c : BytesCodec) (src data rest : List Nat) (n : Nat)
    (hraw : c.raw = false) (hstate : c.state = .Data n)
    (hdata : decodeData n src = some (data, rest)) :
    decode c src = (.ok (some data), { c with state := .Head }, rest) := by
  obtain ⟨st, raw, mx⟩ := c
  simp only at hraw hstate
  subst hraw hstate
  simp only [decode, Bool.false_eq_true, if_false, hdata]

/-- One `decode` call on the next chunk of a frame: no-frame-yet (moving the
mid-state forward) before the frame is complete, the payload exactly when the
last byte arrives. -/
theorem decode_mid_step (c : BytesCodec) (h L : Nat) (p : List Nat) (k j : Nat)
    (hraw : c.raw = false) (hstate : c.state = .Head)
    (hh1 : 1 ≤ h) (hh4 : h ≤ 4) (hL : L ≤ hdrMax h) (hmax : L ≤ c.maxPacketLength)
    (hp : p.length = L) (hj : 1 ≤ j) (hkj : k + j ≤ h + L) :
    decode (midState c h L p k).1
        ((midState c h L p k).2 ++ ((genHeader h L ++ p).drop k).take j) =
      if k + j < h + L then (.ok none, midState c h L p (k + j))
      else (.ok (some p), c, []) := by
  have hgl : (genHeader h L).length = h := genHeader_length h L
  have htakeL : p.take L = p := by rw [← hp]; exact List.take_length p
  have hdropL : p.drop L = [] := by rw [← hp]; exact List.drop_length p
  by_cases hk : k < h
  · -- still awaiting the header
    rw [midState, if_pos hk]
    simp only
    rw [← List.take_add]
    by_cases hkj2 : k + j < h
    · -- header still incomplete after this chunk
      rw [List.take_append_of_le_length (by omega)]
      rw [decode_head_none c _ _ hraw hstate
        (decodeHead_partial_header c h L (k + j) hh4 hkj2)]
      rw [if_pos (by omega), midState, if_pos hkj2]
      rw [List.take_append_of_le_length (by omega)]
    · -- header completes within this chunk
      rw [take_append_ge _ _ _ (by omega), hgl]
      have hdh := decodeHead_genHeader c L (p.take (k + j - h)) h hh1 hh4 hL hmax
      by_cases hend : k + j < h + L
      · have hdd : decodeData L (p.take (k + j - h)) = none := by
          rw [decodeData, if_pos (by rw [List.length_take]; omega)]
        rw [decode_head_some_short c _ _ L hraw hstate hdh hdd]
        rw [if_pos hend, midState, if_neg (by omega)]
      · have hfull : k + j - h = L := by omega
        have htl : p.take (k + j - h) = p := by rw [hfull, htakeL]
        have hdd : decodeData L (p.take (k + j - h)) = some (p, []) := by
          rw [htl, decodeData, if_neg (by omega), htakeL, hdropL]
        rw [decode_head_some_full c _ _ p [] L hraw hstate hdh hdd]
        rw [if_neg hend, set_state_head_eq c hstate]
  · -- header already consumed, awaiting payload
    rw [midState, if_neg hk]
    simp only
    rw [drop_append_ge _ _ _ (by omega), hgl, ← List.take_add]
    by_cases hend : k + j < h + L
    · have hdd : decodeData L (p.take (k - h + j)) = none := by
        rw [decodeData, if_pos (by rw [List.length_take]; omega)]
      rw [decode_data_short { c with state := .Data L } _ L hraw rfl hdd]
      rw [if_pos hend, midState, if_neg (by omega)]
      have heq : k - h + j = k + j - h := by omega
      rw [heq]
    · have hfull : k - h + j = L := by omega
      have hdd : decodeData L (p.take (k - h + j)) = some (p, []) := by
        rw [hfull, htakeL, decodeData, if_neg (by omega), htakeL, hdropL]
      rw [decode_data_full { c with state := .Data L } _ p [] L hraw rfl hdd]
      rw [if_neg hend]
      simp only
      rw [set_state_head_eq c hstate]

/-- Feeding the remaining chunks of a frame from any mid-state: every call
before the last returns no-frame-yet and the last returns the payload. -/
theorem feed_from (c : BytesCodec) (h L : Nat) (p : List Nat)
    (hraw : c.raw = false) (hstate : c.state = .Head)
    (hh1 : 1 ≤ h) (hh4 : h ≤ 4) (hL : L ≤ hdrMax h) (hmax : L ≤ c.maxPacketLength)
    (hp : p.length = L) :
    ∀ (cs : List (List Nat)) (k : Nat),
      (∀ ch ∈ cs, ch ≠ []) → cs ≠ [] →
      cs.flatten = (genHeader h L ++ p).drop k → k < h + L →
      feedChunks (midState c h L p k).1 (midState c h L p k).2 cs =
        .ok (c, [], List.replicate (cs.length - 1) none ++ [some p]) := by
  intro cs
  induction cs with
  | nil =>
    intro k _ hnil _ _
    exact absurd rfl hnil
  | cons ch rest ih =>
    intro k hne _ hjoin hk
    have hElen : (genHeader h L ++ p).length = h + L := by
      simp [genHeader_length, hp]
    rw [List.flatten_cons] at hjoin
    have hch : ((genHeader h L ++ p).drop k).take ch.length = ch := by
      rw [← hjoin, List.take_left]
    have hrest : rest.flatten = (genHeader h L ++ p).drop (k + ch.length) := by
      rw [← List.drop_drop, ← hjoin, List.drop_left]
    have hchlen : 1 ≤ ch.length := by
      have := hne ch (by simp)
      cases ch with
      | nil => exact absurd rfl this
      | cons a t => simp
    have hkj : k + ch.length ≤ h + L := by
      have := congrArg List.length hjoin
      simp [List.length_drop, hElen] at this
      omega
    have hstep := decode_mid_step c h L p k ch.length hraw hstate hh1 hh4 hL hmax hp
      hchlen hkj
    rw [hch] at hstep
    by_cases hlt : k + ch.length < h + L
    · rw [if_pos hlt] at hstep
      have hrestne : rest ≠ [] := by
        intro hr
        rw [hr] at hrest
        have := congrArg List.length hrest
        simp [List.length_drop, hElen] at this
        omega
      simp only [feedChunks, hstep]
      rw [ih (k + ch.length) (fun x hx => hne x (by simp [hx])) hrestne hrest hlt]
      have hrl : 1 ≤ rest.length := by
        cases rest with
        | nil => exact absurd rfl hrestne
        | cons a t => simp
      have hrepl : (ch :: rest).length - 1 = rest.length - 1 + 1 := by
        simp; omega
      rw [hrepl, List.replicate_succ]
      rfl
    · rw [if_neg hlt] at hstep
      have hdone : k + ch.length = h + L := by omega
      have hrestnil : rest = [] := by
        rw [hdone] at hrest
        rw [← hElen, List.drop_length] at hrest
        cases rest with
        | nil => rfl
        | cons a t =>
          have ha := hne a (by simp)
          rw [List.flatten_cons] at hrest
          have := List.append_eq_nil.mp hrest
          exact absurd this.1 ha
      subst hrestnil
      simp only [feedChunks, hstep]
      rfl

/-- `decode_head` on a buffer shorter than the announced header length
consumes nothing and reports no-frame-yet. -/
theorem decodeHead_short (c : BytesCodec) (src : List Nat)
    (hshort : src.length < (src.headD 0 &&& 0x3) + 1) :
    decodeHead c src = (.ok none, src) := by
  simp only [decodeHead]
  split_ifs <;> rfl

theorem hdrMax_le (h : Nat) : hdrMax h ≤ 0x3FFFFFFF := by
  unfold hdrMax
  split <;> norm_num

theorem new_max_large' (L : Nat) (hL : L ≤ 0x3FFFFFFF) :
    L ≤ BytesCodec.new.maxPacketLength := by
  simp only [BytesCodec.new]
  omega

/-- **C2.** Partial-read resilience: splitting a well-formed encoded frame
into any finite sequence of non-empty chunks and feeding them to framed
`decode` one at a time (from the `Head` state) returns no-frame-yet on every
chunk but the last and the full payload on the last — the same payload a
single `decode` call on the whole frame returns; and `decode` consumes
nothing from the buffer while a header or a payload is still incomplete. -/
theorem C2_chunked_decode (h L : Nat) (p : List Nat) (cs : List (List Nat))
    (hh1 : 1 ≤ h) (hh4 : h ≤ 4) (hL : L ≤ hdrMax h) (hp : p.length = L)
    (hne : ∀ ch ∈ cs, ch ≠ []) (hcs : cs ≠ [])
    (hjoin : cs.flatten = genHeader h L ++ p) :
    feedChunks BytesCodec.new [] cs =
      .ok (BytesCodec.new, [], List.replicate (cs.length - 1) none ++ [some p]) ∧
    decode BytesCodec.new (genHeader h L ++ p) = (.ok (some p), BytesCodec.new, []) ∧
    (∀ (c : BytesCodec) (src : List Nat), c.raw = false → c.state = .Head →
      src.length < (src.headD 0 &&& 0x3) + 1 → decode c src = (.ok none, c, src)) ∧
    (∀ (c : BytesCodec) (n : Nat) (src : List Nat), c.raw = false → c.state = .Data n →
      src.length < n → decode c src = (.ok none, c, src)) := by
  have hmax : L ≤ BytesCodec.new.maxPacketLength :=
    new_max_large' L (le_trans hL (hdrMax_le h))
  refine ⟨?_, ?_, ?_, ?_⟩
  · have hfeed := feed_from BytesCodec.new h L p rfl rfl hh1 hh4 hL hmax hp cs 0
      hne hcs (by simpa using hjoin) (by omega)
    have hms : midState BytesCodec.new h L p 0 = (BytesCodec.new, []) := by
      rw [midState, if_pos (by omega)]
      simp
    rw [hms] at hfeed
    exact hfeed
  · exact decode_genHeader BytesCodec.new h L p rfl rfl hh1 hh4 hL hmax hp
  · intro c src hraw hstate hshort
    exact decode_head_none c src src hraw hstate (decodeHead_short c src hshort)
  · intro c n src hraw hstate hshort
    exact decode_data_short c src n hraw hstate (by rw [decodeData, if_pos hshort])

/-- Concrete instance of C2: the frame for payload `[1, 2, 3]` split into the
chunks `[12, 1]` and `[2, 3]`. -/
theorem C2_chunked_decode_witness :
    feedChunks BytesCodec.new [] [[12, 1], [2, 3]] =
      .ok (BytesCodec.new, [], [none, some [1, 2, 3]]) :=
  (C2_chunked_decode 1 3 [1, 2, 3] [[12, 1], [2, 3]] (by norm_num) (by norm_num)
    (by decide) rfl (by decide) (by decide) (by decide)).1

/-- `decode_head` on a complete header declaring an oversized length errors
without consuming anything. -/
theorem decodeHead_oversized (c : BytesCodec) (src : List Nat)
    (hne : src ≠ []) (hcomplete : (src.headD 0 &&& 0x3) + 1 ≤ src.length)
    (hover : declaredLen src > c.maxPacketLength) :
    decodeHead c src = (.error "Too big packet", src) := by
  simp only [declaredLen] at hover
  simp only [decodeHead]
  rw [if_neg (by simpa [List.isEmpty_iff] using hne), if_neg (by omega), if_pos hover]

/-- `decode` in framed `Head` state on an oversized header: error, with the
codec and the buffer untouched. -/
theorem decode_oversized (c : BytesCodec) (src : List Nat)
    (hraw : c.raw = false) (hstate : c.state = .Head)
    (hne : src ≠ []) (hcomplete : (src.headD 0 &&& 0x3) + 1 ≤ src.length)
    (hover : declaredLen src > c.maxPacketLength) :
    decode c src = (.error "Too big packet", c, src) := by
  obtain ⟨st, raw, mx⟩ := c
  simp only at hraw hstate
  subst hraw hstate
  simp only [decode, Bool.false_eq_true, if_false]
  rw [decodeHead_oversized _ src hne hcomplete hover]

theorem minHeaderLen_pos (L : Nat) : 1 ≤ minHeaderLen L := by
  unfold minHeaderLen
  split_ifs <;> omega

theorem minHeaderLen_le_four (L : Nat) : minHeaderLen L ≤ 4 := by
  unfold minHeaderLen
  split_ifs <;> omega

theorem le_hdrMax_minHeaderLen (L : Nat) (hL : L ≤ 0x3FFFFFFF) :
    L ≤ hdrMax (minHeaderLen L) := by
  unfold minHeaderLen
  split_ifs with h1 h2 h3 <;> simp [hdrMax] <;> omega

theorem minHeaderLen_min (L h : Nat) (hh1 : 1 ≤ h) (hh4 : h ≤ 4) (hx : L ≤ hdrMax h) :
    minHeaderLen L ≤ h := by
  interval_cases h <;> simp [hdrMax] at hx <;> unfold minHeaderLen <;> split_ifs <;> omega

theorem new_max_large (L : Nat) (hL : L ≤ 0x3FFFFFFF) :
    L ≤ BytesCodec.new.maxPacketLength := by
  simp only [BytesCodec.new]
  omega

/-- **C1.** Framed round-trip: for every payload of length `L ≤ 0x3FFFFFFF`,
the encoder emits the minimal-length header of the §3 table followed by the
payload; decoding the produced bytes yields exactly the payload; the chosen
header length is minimal among the header lengths that can represent `L`;
and the decoder accepts every header length (1–4) capable of representing
`L`, not only the minimal one. -/
theorem C1_roundtrip_minimal_header (p : List Nat) (hL : p.length ≤ 0x3FFFFFFF) :
    encode BytesCodec.new p [] =
      .ok (genHeader (minHeaderLen p.length) p.length ++ p) ∧
    (genHeader (minHeaderLen p.length) p.length).length = minHeaderLen p.length ∧
    decode BytesCodec.new (genHeader (minHeaderLen p.length) p.length ++ p) =
      (.ok (some p), BytesCodec.new, []) ∧
    (∀ h, 1 ≤ h → h ≤ 4 → p.length ≤ hdrMax h → minHeaderLen p.length ≤ h) ∧
    (∀ h, 1 ≤ h → h ≤ 4 → p.length ≤ hdrMax h →
      decode BytesCodec.new (genHeader h p.length ++ p) =
        (.ok (some p), BytesCodec.new, [])) := by
  refine ⟨?_, genHeader_length _ _, ?_, ?_, ?_⟩
  · have := encode_framed BytesCodec.new p [] rfl hL
    simpa using this
  · exact decode_genHeader BytesCodec.new (minHeaderLen p.length) p.length p rfl rfl
      (minHeaderLen_pos _) (minHeaderLen_le_four _) (le_hdrMax_minHeaderLen _ hL)
      (new_max_large _ hL) rfl
  · intro h hh1 hh4 hx
    exact minHeaderLen_min _ h hh1 hh4 hx
  · intro h hh1 hh4 hx
    exact decode_genHeader BytesCodec.new h p.length p rfl rfl hh1 hh4 hx
      (new_max_large _ hL) rfl

/-- Concrete instance of C1 at the payload `[1, 2, 3]`. -/
theorem C1_roundtrip_minimal_header_witness :
    decode BytesCodec.new
        (genHeader (minHeaderLen ([1, 2, 3] : List Nat).length) ([1, 2, 3] : List Nat).length
          ++ [1, 2, 3]) =
      (.ok (some [1, 2, 3]), BytesCodec.new, []) :=
  (C1_roundtrip_minimal_header [1, 2, 3] (by norm_num)).2.2.1

/-- **C3.** A complete header declaring a length above `max_packet_length`
makes framed `decode` fail with the oversized-packet error; no frame is
emitted. -/
theorem C3_oversized_rejected (c : BytesCodec) (src : List Nat)
    (hraw : c.raw = false) (hstate : c.state = .Head) (hne : src ≠ [])
    (hcomplete : (src.headD 0 &&& 0x3) + 1 ≤ src.length)
    (hover : declaredLen src > c.maxPacketLength) :
    (decode c src).1 = .error "Too big packet" ∧
    ∀ f, (decode c src).1 ≠ .ok (some f) := by
  rw [decode_oversized c src hraw hstate hne hcomplete hover]
  exact ⟨rfl, fun f h => by cases h⟩

/-- Concrete instance of C3: `max_packet_length = 2`, header declares 5. -/
theorem C3_oversized_rejected_witness :
    (decode { state := .Head, raw := false, maxPacketLength := 2 } [20, 1, 2]).1 =
      .error "Too big packet" :=
  (C3_oversized_rejected { state := .Head, raw := false, maxPacketLength := 2 }
    [20, 1, 2] rfl rfl (by decide) (by decide) (by decide)).1

/-- **C10.** The oversized-packet failure is atomic: the buffer is exactly as
it was (the offending header bytes included) and the decoder is still in the
`Head` (AwaitingHeader) state. -/
theorem C10_oversized_atomic (c : BytesCodec) (src : List Nat)
    (hraw : c.raw = false) (hstate : c.state = .Head) (hne : src ≠ [])
    (hcomplete : (src.headD 0 &&& 0x3) + 1 ≤ src.length)
    (hover : declaredLen src > c.maxPacketLength) :
    (decode c src).2.1 = c ∧ (decode c src).2.2 = src ∧
    (decode c src).2.1.state = .Head := by
  rw [decode_oversized c src hraw hstate hne hcomplete hover]
  exact ⟨rfl, rfl, hstate⟩

/-- Concrete instance of C10 at the same failing input as C3. -/
theorem C10_oversized_atomic_witness :
    (decode { state := .Head, raw := false, maxPacketLength := 2 } [20, 1, 2]).2.2 =
      [20, 1, 2] :=
  (C10_oversized_atomic { state := .Head, raw := false, maxPacketLength := 2 }
    [20, 1, 2] rfl rfl (by decide) (by decide) (by decide)).2.1

/-- **C8.** Raw mode: `decode` on a non-empty buffer returns the whole buffer
as one frame (consuming it) with no header interpretation, `decode` on an
empty buffer returns no-frame-yet, and `encode` appends the payload
byte-identical with no header. -/
theorem C8_raw_passthrough (c : BytesCodec) (hraw : c.raw = true) :
    (∀ src : List Nat, src ≠ [] → decode c src = (.ok (some src), c, [])) ∧
    decode c [] = (.ok none, c, []) ∧
    (∀ data buf : List Nat, encode c data buf = .ok (buf ++ data)) := by
  refine ⟨fun src hne => ?_, ?_, fun data buf => ?_⟩
  · simp [decode, hraw, List.isEmpty_iff, hne]
  · simp [decode, hraw]
  · simp [encode, hraw]

/-- Concrete instance of C8 on the buffer `[9, 9]`. -/
theorem C8_raw_passthrough_witness :
    decode { state := .Head, raw := true, maxPacketLength := 2 ^ 64 - 1 } [9, 9] =
      (.ok (some [9, 9]), { state := .Head, raw := true, maxPacketLength := 2 ^ 64 - 1 }, []) :=
  (C8_raw_passthrough { state := .Head, raw := true, maxPacketLength := 2 ^ 64 - 1 } rfl).1
    [9, 9] (by decide)

/-! Helper lemmas for the orchestrator claims. -/

theorem splitOnChar_no_sep (sep : Char) (a : List Char)
    (ha : ∀ c ∈ a, c ≠ sep) : splitOnChar sep a = [a] := by
  induction a with
  | nil => rfl
  | cons c a' ih =>
    have hc : c ≠ sep := ha c (by simp)
    rw [splitOnChar, if_neg hc, ih (fun x hx => ha x (by simp [hx]))]

theorem splitOnChar_append (sep : Char) (a b : List Char)
    (ha : ∀ c ∈ a, c ≠ sep) :
    splitOnChar sep (a ++ sep :: b) = a :: splitOnChar sep b := by
  induction a with
  | nil => simp [splitOnChar]
  | cons c a' ih =>
    have hc : c ≠ sep := ha c (by simp)
    rw [List.cons_append, splitOnChar, if_neg hc,
      ih (fun x hx => ha x (by simp [hx]))]

theorem countP_colon_zero (p : Char → Bool) (s : List Char)
    (hs : ∀ c ∈ s, p c = false) : s.countP p = 0 :=
  List.countP_eq_zero.mpr (by simpa using hs)

/-- A host with no colon at all is classified as not IPv6. -/
theorem is_ipv6_str_no_colon (host : List Char)
    (h : ∀ c ∈ host, c ≠ ':') : is_ipv6_str host = false := by
  have hcount :
      ∀ core : List Char, (∀ c ∈ core, c ≠ ':') →
        (core.countP (fun c => decide (c = ':'))) = 0 := by
    intro core hcore
    exact countP_colon_zero _ core (fun c hc => by simp [hcore c hc])
  simp only [is_ipv6_str]
  split_ifs with hbr
  · rw [hcount ((host.drop 1).takeWhile (fun c => !(c = ']')))
      (fun c hc => h c (List.mem_of_mem_drop (List.takeWhile_subset _ hc)))]
    simp
  · rw [hcount host h]
    simp

/-- **C4.** With a SOCKS proxy configured, `connect_tcp_local` delegates
entirely to the proxy-aware stream collaborator with
`(target, local_bind, proxy_config, timeout)` and performs no NAT64
DNS-synthesis lookup, whatever the address families involved. -/
theorem C4_proxy_short_circuit :
    ∀ (conf : SocksConf) (lookup : SocketAddr → Except String (List SocketAddr))
      (target : ConnTarget) (localAddr : Option SocketAddr) (ms : Nat),
      connect_tcp_local (some conf) lookup target localAddr ms =
        (.ok (.proxyConnect target localAddr conf ms), []) :=
  fun _ _ _ _ _ => rfl

/-- **C5.** Without a proxy, for a resolved IPv4 target and an IPv6 local
bind, `connect_tcp_local` performs NAT64 synthesis: it resolves the NAT64
name of the target (exactly one DNS-synthesis call, keyed by the target),
connects to the first IPv6 result with the IPv6 local bind, and fails with
the descriptive nip.io error when no IPv6 result exists. -/
theorem C5_nat64_synthesis (lookup : SocketAddr → Except String (List SocketAddr))
    (t l : SocketAddr) (ms : Nat)
    (ht : t.is_ipv4 = true) (hl : l.is_ipv6 = true) :
    (connect_tcp_local none lookup (.addr t) (some l) ms).2 = [t] ∧
    (∀ addrs a6, lookup t = .ok addrs →
      addrs.find? (fun x => x.is_ipv6) = some a6 →
      (connect_tcp_local none lookup (.addr t) (some l) ms).1 =
        .ok (.directNew (.addr a6) (some l) ms)) ∧
    (∀ addrs, lookup t = .ok addrs →
      addrs.find? (fun x => x.is_ipv6) = none →
      (connect_tcp_local none lookup (.addr t) (some l) ms).1 =
        .error "Failed to get ipv6 from nip.io") := by
  have hcond : (l.is_ipv6 && t.is_ipv4) = true := by rw [hl, ht]; rfl
  refine ⟨?_, ?_, ?_⟩
  · simp only [connect_tcp_local, ConnTarget.resolve, hcond, if_true]
    cases hq : query_nip_io lookup t <;> simp
  · intro addrs a6 hlk hfind
    simp only [connect_tcp_local, ConnTarget.resolve, hcond, if_true,
      query_nip_io, hlk, hfind]
  · intro addrs hlk hfind
    simp only [connect_tcp_local, ConnTarget.resolve, hcond, if_true,
      query_nip_io, hlk, hfind]

/-- Concrete instance of C5: one synthesis call, keyed by the IPv4 target. -/
theorem C5_nat64_synthesis_witness :
    (connect_tcp_local none (fun _ => .ok [SocketAddr.v6 1 8000])
        (.addr (.v4 5 80)) (some (.v6 9 0)) 100).2 = [SocketAddr.v4 5 80] :=
  (C5_nat64_synthesis (fun _ => .ok [SocketAddr.v6 1 8000])
    (.v4 5 80) (.v6 9 0) 100 rfl rfl).1

/-- **C6.** `select_udp_socket` (`new_udp_for`): with the Direct network
type it probes the peer and binds a local UDP address of the peer's family
(an IPv4 peer gives the IPv4 wildcard bind), propagating a probe failure;
with a non-Direct network type it assumes IPv4, resolves the target as an
unresolved proxy target address, and never probes (the result is
independent of the probing collaborators). -/
theorem C6_family_matched_udp (socks : Option SocksConf)
    (connect : Nat → List Char → Option SocketAddr)
    (lookup : List Char → Except String (List SocketAddr))
    (intoTA : List Char → Except String TargetAddr)
    (target : List Char) (ms : Nat) :
    (∀ addr, test_target connect lookup target = .ok addr →
      new_udp_for .Direct socks connect lookup intoTA target ms =
        .ok (new_udp socks (get_any_listen_addr addr.is_ipv4) ms, .Ip addr)) ∧
    (∀ e, test_target connect lookup target = .error e →
      new_udp_for .Direct socks connect lookup intoTA target ms = .error e) ∧
    (get_any_listen_addr true).is_ipv4 = true ∧
    (get_any_listen_addr false).is_ipv6 = true ∧
    (∀ connect' lookup',
      new_udp_for .ProxySocks socks connect lookup intoTA target ms =
        new_udp_for .ProxySocks socks connect' lookup' intoTA target ms) ∧
    (∀ ta, intoTA target = .ok ta →
      new_udp_for .ProxySocks socks connect lookup intoTA target ms =
        .ok (new_udp socks (get_any_listen_addr true) ms, ta)) := by
  refine ⟨?_, ?_, rfl, rfl, ?_, ?_⟩
  · intro addr htest
    simp [new_udp_for, htest]
  · intro e htest
    simp [new_udp_for, htest]
  · intro connect' lookup'
    simp [new_udp_for]
  · intro ta hta
    simp [new_udp_for, hta]

/-- Concrete instance of C6: an IPv4-only peer yields the IPv4 wildcard
bind even though an IPv6 local address exists in the model. -/
theorem C6_family_matched_udp_witness :
    new_udp_for .Direct none (fun _ _ => some (.v4 7 21)) (fun _ => .ok [])
        (fun _ => .error "unused") [] 300 =
      .ok (new_udp none (get_any_listen_addr true) 300, .Ip (.v4 7 21)) :=
  (C6_family_matched_udp none (fun _ _ => some (.v4 7 21)) (fun _ => .ok [])
    (fun _ => .error "unused") [] 300).1 (.v4 7 21) rfl

/-- **C7.** `probe_peer` (`test_target`): the TCP probe runs with the fixed
1000 ms timeout — the result only depends on the connector's behaviour at
timeout 1000, so it is independent of any caller-supplied timeout; a
successful probe returns the peer's resolved address; on probe failure it
falls back to DNS resolution and returns the first resolved address, and
produces the no-address-found error exactly when the fallback resolution
yields no address. -/
theorem C7_probe_fixed_timeout_then_dns
    (connect : Nat → List Char → Option SocketAddr)
    (lookup : List Char → Except String (List SocketAddr))
    (target : List Char) :
    (∀ a, connect 1000 target = some a →
      test_target connect lookup target = .ok a) ∧
    (connect 1000 target = none →
      (∀ addrs a, lookup target = .ok addrs → addrs.head? = some a →
        test_target connect lookup target = .ok a) ∧
      (∀ addrs, lookup target = .ok addrs → addrs.head? = none →
        test_target connect lookup target =
          .error ("Failed to look up host for " ++ String.mk target)) ∧
      (∀ e, lookup target = .error e →
        test_target connect lookup target = .error e)) ∧
    (∀ connect' : Nat → List Char → Option SocketAddr,
      (∀ u, connect' 1000 u = connect 1000 u) →
      test_target connect' lookup target = test_target connect lookup target) := by
  refine ⟨?_, ?_, ?_⟩
  · intro a hc
    simp [test_target, hc]
  · intro hc
    refine ⟨?_, ?_, ?_⟩
    · intro addrs a hlk hhd
      simp [test_target, hc, hlk, hhd]
    · intro addrs hlk hhd
      simp [test_target, hc, hlk, hhd]
    · intro e hlk
      simp [test_target, hc, hlk]
  · intro connect' hsame
    simp [test_target, hsame]

/-- Concrete instance of C7: probe failure falls back to the first DNS
result. -/
theorem C7_probe_fixed_timeout_then_dns_witness :
    test_target (fun _ _ => none) (fun _ => .ok [SocketAddr.v4 3 9, SocketAddr.v6 4 9])
        ['x'] = .ok (.v4 3 9) :=
  ((C7_probe_fixed_timeout_then_dns (fun _ _ => none)
      (fun _ => .ok [SocketAddr.v4 3 9, SocketAddr.v6 4 9]) ['x']).2.1 rfl).1
    [SocketAddr.v4 3 9, SocketAddr.v6 4 9] (.v4 3 9) rfl rfl

/-- A successfully parsed `i32` lies in the `i32` range. -/
theorem parseI32_range (s : List Char) (p : Int) (h : parseI32 s = some p) :
    -(2 ^ 31) ≤ p ∧ p ≤ 2 ^ 31 - 1 := by
  unfold parseI32 at h
  split at h <;>
    (obtain ⟨n, hn, hif⟩ := Option.bind_eq_some.mp h
     split at hif <;> simp_all <;> omega)

/-- Wrapping is the identity on the representable range. -/
theorem i32Wrap_eq_self (x : Int) (h1 : -(2 ^ 31) ≤ x) (h2 : x ≤ 2 ^ 31 - 1) :
    i32Wrap x = x := by
  unfold i32Wrap
  omega

/-- **C9.** `shift_port` (`increase_port`): parses an explicit trailing port
(bracket-aware for IPv6), replaces a positive port by the `i32` sum
`port + offset`, and otherwise returns the host unchanged; in particular the
three specified examples, a host with no colon is always returned unchanged,
and a plain `host:port` with a positive port whose shifted value stays in
the `i32` range gets exactly its port replaced by `port + offset`. -/
theorem C9_shift_port :
    increase_port "10.0.0.1:8000".toList 1 = "10.0.0.1:8001".toList ∧
    increase_port "example.com".toList 5 = "example.com".toList ∧
    increase_port "[::1]:8000".toList 1 = "[::1]:8001".toList ∧
    (∀ (host : List Char) (offset : Int), (∀ c ∈ host, c ≠ ':') →
      increase_port host offset = host) ∧
    (∀ (a b : List Char) (offset p : Int),
      is_ipv6_str (a ++ ':' :: b) = false →
      (∀ c ∈ a, c ≠ ':') → (∀ c ∈ b, c ≠ ':') →
      parseI32 b = some p → 0 < p →
      -(2 ^ 31) ≤ offset → p + offset ≤ 2 ^ 31 - 1 →
      increase_port (a ++ ':' :: b) offset = a ++ ':' :: intToChars (p + offset)) := by
  refine ⟨by decide, by decide, by decide, ?_, ?_⟩
  · intro host offset hnc
    have h6 : is_ipv6_str host = false := is_ipv6_str_no_colon host hnc
    have hcont : host.contains ':' = false := by
      rw [Bool.eq_false_iff]
      intro hcc
      exact hnc ':' (List.elem_iff.mp hcc) rfl
    rw [increase_port, h6, if_neg (by simp), hcont, if_neg (by simp)]
  · intro a b offset p h6 hna hnb hparse hp hlo hhi
    have hsplit : splitOnChar ':' (a ++ ':' :: b) = [a, b] := by
      rw [splitOnChar_append ':' a b hna, splitOnChar_no_sep ':' b hnb]
    have hcont : (a ++ ':' :: b).contains ':' = true := by
      simp [List.contains_eq_any_beq]
    have hwrap : i32Wrap (p + offset) = p + offset :=
      i32Wrap_eq_self (p + offset) (by omega) hhi
    rw [increase_port, h6, if_neg (by simp), hcont, if_pos rfl, hsplit]
    simp [hparse, hp, hwrap]

end MiniRustDesk
